import Mathlib

/-!
Verification of the CogSocket protocol engine (src/cogsocket.js).

The engine is shallowly embedded: the JavaScript object graph becomes the
inductive `JVal`, the engine's `_priv` record becomes `EngineState`, and each
source function (`parsePath`, `sendRequest`, `sendResponse`, `socketMessage`,
`addListener`, `removeListener`, `close`) becomes an executable Lean function
of the same name.  Outbound transport sends, completion-callback invocations,
local listener invocations, and debug-log lines are recorded as an explicit
`Effect` list instead of being performed.  JavaScript exceptions are modelled
with `Except JErr`; the `try/catch` in `socketMessage` becomes the explicit
error plumbing in `processMsg` together with the catch clause at the end of
`socketMessage`.

Modelling notes (divergences from raw JavaScript, none load-bearing for the
theorems below):
* The wire codec is modelled at message granularity (`WireMsg`); JSON
  serialization is not re-implemented.  A missing `id` field is represented
  by `0` (the source itself treats the id as falsy exactly when it is `0` or
  absent), a missing `body` by `JVal.undefined`, and a missing `error` by `0`
  (the source tests `!message.error`, so `0` and absent are equivalent).
* Member functions of the object graph are referenced by a numeric tag
  (`JVal.func n`); their behaviour is supplied by an environment
  `fenv : FEnv` passed to the semantics.  Modelled functions are pure: they
  return `Except JErr JVal`.  The `this` binding of `apply`/`call` is not
  modelled (no claim depends on it).
* Prototype-chain members of primitives and strings are not modelled:
  property reads on numbers, booleans, strings and functions yield `undefined`,
  as they do in JavaScript for ordinary (non-builtin) property names.
* `Object.freeze` (used by `ConnectionObject`) is the `frozen` flag of
  `JVal.obj`; the module is sloppy-mode JavaScript, so assignment to a frozen
  object's property (and to a property of a primitive) fails silently, which
  `setMember` reproduces.  Sparse array writes and `length` assignment are
  not modelled (writes past the end leave the array unchanged).
* The object graph is a tree: aliasing inside the supplied root is not
  representable.  Mutation through a resolved reference is translated into a
  functional update along the access path (`setAtPath`/`replaceChild`).
* The `addListener`/`removeListener` duck-typed calls that `socketMessage`
  performs on the local graph for inbound listen/unlisten are modelled as
  `Effect.attach`/`Effect.detach` after checking (as the source's call does)
  that the target member named `addListener`/`removeListener` is invocable;
  the sender closure argument is opaque to the graph and is elided.
* Per-frame trace logging (`"WebSocket.onmessage"`, `"Got ..."`, `"Send ..."`)
  is elided because it is emitted uniformly; the two logs with semantic
  significance (unmatched response, caught exception) are kept.
* The `hello` handshake's caching of `localInfo`/`remoteInfo` in `_priv` is
  environment-dependent and not claimed about; `hello` is the function tag
  `helloId`, whose behaviour is again supplied by the environment.
-/

set_option maxHeartbeats 1000000

namespace CogSpec

/-! ## Association lists

JavaScript object property tables (`priv.pendingRequests`, `priv.listeners`,
and object members) are modelled as association lists with the JS semantics:
lookup finds the (unique) key, assignment updates in place or appends, and
`delete` removes the key. -/

def alook {κ α : Type} [DecidableEq κ] : List (κ × α) → κ → Option α
  | [], _ => none
  | (k', v) :: t, k => if k' = k then some v else alook t k

def aupd {κ α : Type} [DecidableEq κ] : List (κ × α) → κ → α → List (κ × α)
  | [], _, _ => []
  | (k', v') :: t, k, v => if k' = k then (k', v) :: t else (k', v') :: aupd t k v

def aset {κ α : Type} [DecidableEq κ] (l : List (κ × α)) (k : κ) (v : α) : List (κ × α) :=
  if (alook l k).isSome then aupd l k v else l ++ [(k, v)]

def adel {κ α : Type} [DecidableEq κ] : List (κ × α) → κ → List (κ × α)
  | [], _ => []
  | (k', v') :: t, k => if k' = k then adel t k else (k', v') :: adel t k

/-! ## JavaScript values and errors -/

structure JErr where
  message : String
  number : Option Int := none
deriving DecidableEq

/-- A JavaScript value as seen by the engine: the JSON constructors plus
`undefined`, plus objects (with their `Object.freeze` status) and function
references.  A function member carries a tag resolved by an `FEnv`. -/
inductive JVal : Type where
  | undefined : JVal
  | null : JVal
  | bool : Bool → JVal
  | num : Int → JVal
  | str : String → JVal
  | arr : List JVal → JVal
  | obj : Bool → List (String × JVal) → JVal
  | func : Nat → JVal

/-- Behaviour of the function members of the object graph: tag ↦ semantics. -/
def FEnv : Type := Nat → List JVal → Except JErr JVal

def typeErr (msg : String) : JErr := { message := msg, number := none }

/-- Accumulating decimal parse of a digit list (`48 = '0'.toNat`). -/
def digitsToNat : List Char → Nat → Option Nat
  | [], acc => some acc
  | c :: t, acc =>
    if 48 ≤ c.toNat && c.toNat ≤ 57 then digitsToNat t (acc * 10 + (c.toNat - 48))
    else none

/-- Canonical array index reading of a property name, as JavaScript does for
array element access ("3" is an index, "03" is not).  Implemented over the
character list so that it evaluates by reduction; the 2^32-1 upper bound of
JavaScript array indices is not modelled. -/
def toIndex (s : String) : Option Nat :=
  match s.toList with
  | [] => none
  | c :: t =>
    if c.toNat = 48 then (if t.isEmpty then some 0 else none)
    else digitsToNat (c :: t) 0

/-- Property read, `v[p]`.  Reading a property of `undefined`/`null` throws;
reading a missing property of an object yields `undefined`. -/
def getMember : JVal → String → Except JErr JVal
  | .undefined, p => .error (typeErr ("Cannot read properties of undefined (reading '" ++ p ++ "')"))
  | .null, p => .error (typeErr ("Cannot read properties of null (reading '" ++ p ++ "')"))
  | .obj _ fl, p => .ok ((alook fl p).getD .undefined)
  | .arr xs, p =>
    if p = "length" then .ok (.num (Int.ofNat xs.length))
    else
      match toIndex p with
      | some i => .ok (xs.getD i .undefined)
      | none => .ok .undefined
  | .bool _, _ => .ok .undefined
  | .num _, _ => .ok .undefined
  | .str _, _ => .ok .undefined
  | .func _, _ => .ok .undefined

/-- Property write, `v[p] = x`, in sloppy mode: writing to `undefined`/`null`
throws; writing to a frozen object or to a primitive silently does nothing;
writing to a plain object updates or appends the member. -/
def setMember : JVal → String → JVal → Except JErr JVal
  | .undefined, p, _ => .error (typeErr ("Cannot set properties of undefined (setting '" ++ p ++ "')"))
  | .null, p, _ => .error (typeErr ("Cannot set properties of null (setting '" ++ p ++ "')"))
  | .obj true fl, _, _ => .ok (.obj true fl)
  | .obj false fl, p, v => .ok (.obj false (aset fl p v))
  | .arr xs, p, v =>
    match toIndex p with
    | some i =>
      if i < xs.length then .ok (.arr (xs.set i v))
      else if i = xs.length then .ok (.arr (xs ++ [v]))
      else .ok (.arr xs)
    | none => .ok (.arr xs)
  | .bool b, _, _ => .ok (.bool b)
  | .num n, _, _ => .ok (.num n)
  | .str s, _, _ => .ok (.str s)
  | .func n, _, _ => .ok (.func n)

/-- Functional image of by-reference child mutation: the child reached at key
`k` of `v` was mutated in place to `m`; rebuild the parent.  (Only containers
have in-place-mutable children, and the key is present whenever the child was
obtained from a successful member read of a container.) -/
def replaceChild (v : JVal) (k : String) (m : JVal) : JVal :=
  match v with
  | .obj fr fl => .obj fr (aupd fl k m)
  | .arr xs =>
    match toIndex k with
    | some i => .arr (xs.set i m)
    | none => .arr xs
  | v => v

/-- The property-access loop of `parsePath`: follow each segment in turn. -/
def walk : JVal → List String → Except JErr JVal
  | v, [] => .ok v
  | v, a :: rest =>
    match getMember v a with
    | .error e => .error e
    | .ok m => walk m rest

/-- `parsed.obj[parsed.prop] = x` re-expressed as a functional update of the
designated root: walk the prefix exactly as `parsePath` does, perform the
assignment at the end, and write the mutated children back. -/
def setAtPath : JVal → List String → String → JVal → Except JErr JVal
  | v, [], p, x => setMember v p x
  | v, a :: rest, p, x =>
    match getMember v a with
    | .error e => .error e
    | .ok m =>
      match setAtPath m rest p x with
      | .error e => .error e
      | .ok m2 => .ok (replaceChild v a m2)

/-- Invoking a member: only function references are invocable. -/
def invoke (fenv : FEnv) : JVal → List JVal → Except JErr JVal
  | .func n, args => fenv n args
  | _, _ => .error (typeErr "is not a function")

/-! ## Wire messages, effects, engine state -/

/-- One protocol frame.  `id = 0` encodes an absent id, `body = undefined` an
absent body, `error = 0` an absent error code (the source tests all three
with JavaScript truthiness). -/
structure WireMsg where
  type : String
  id : Nat
  path : String
  body : JVal
  error : Int

/-- Argument of a completion callback: a value, or a reconstituted error. -/
inductive CbRes where
  | val : JVal → CbRes
  | err : JErr → CbRes

/-- Observable actions of the engine, recorded instead of performed. -/
inductive Effect where
  | send : WireMsg → Effect
  | sendBinary : List Nat → Effect
  | invokeCb : Nat → CbRes → Effect
  | callListener : Nat → List JVal → Effect
  | attach : String → Effect
  | detach : String → Effect
  | log : String → Effect
  | logEx : JErr → Effect
  | wsClose : Effect

/-- Tag of the `hello` member of the connection object. -/
def helloId : Nat := 0

/-- The `ConnectionObject`: one `hello` operation, frozen after construction
(`Object.freeze(this)`). -/
def connObj : JVal := .obj true [("hello", .func helloId)]

/-- The engine's `_priv` record. -/
structure EngineState where
  requestId : Nat
  pendingRequests : List (Nat × Nat)
  listeners : List (String × List Nat)
  eventSenders : List String
  root : Option JVal
  connection : JVal

/-- `_priv` as the `CogSocket` constructor initializes it. -/
def initEngine (root : Option JVal) : EngineState :=
  { requestId := 0, pendingRequests := [], listeners := [], eventSenders := [],
    root := root, connection := connObj }

/-! ## Path resolution -/

structure Parsed where
  base : JVal
  usedConn : Bool
  segs : List String
  prop : String

def noRootErr : JErr := typeErr "No root object is provided"

/-- `path.replace(/\/$/, "")`: drop one trailing slash. -/
def stripSlashChars (l : List Char) : List Char :=
  if l.getLast? = some '/' then l.dropLast else l

/-- `path.split('/')` for the single-character separator the source uses
(splitting `""` yields `[""]`, as in JavaScript). -/
def splitOnSlash : List Char → List (List Char)
  | [] => [[]]
  | c :: t =>
    let r := splitOnSlash t
    if c = '/' then [] :: r
    else
      match r with
      | h :: t2 => (c :: h) :: t2
      | [] => [[c]]

/-- `path.substr(0, 2) == '@/'`: the reserved connection-object prefix. -/
def isConnPath : List Char → Bool
  | '@' :: '/' :: _ => true
  | _ => false

/-- The root-selection and splitting part of `parsePath`: an `@/`-prefixed
path targets the connection object, otherwise the configured root (throwing
when none is configured); the path is then split on `/` into the intermediate
segments and the final member name. -/
def splitPath (s : EngineState) (path : String) : Except JErr Parsed :=
  let chars := path.toList
  let useConn := isConnPath chars
  let p1 := if useConn then chars.drop 2 else chars
  match (if useConn then some s.connection else s.root) with
  | none => .error noRootErr
  | some b =>
    let parts := (splitOnSlash (stripSlashChars p1)).map String.mk
    .ok { base := b, usedConn := useConn, segs := parts.dropLast, prop := parts.getLastD "" }

/-- `parsePath`: split, then follow nested member access across all but the
last segment, returning the penultimate object and the final member name. -/
def parsePath (s : EngineState) (path : String) : Except JErr (Parsed × JVal) :=
  match splitPath s path with
  | .error e => .error e
  | .ok pr =>
    match walk pr.base pr.segs with
    | .error e => .error e
    | .ok o => .ok (pr, o)

/-! ## Requests and responses -/

/-- The largest assignable correlation id (`0x7FFFFFFF` in `sendRequest`). -/
def maxId : Nat := 0x7FFFFFFF

/-- `sendRequest`: allocate the next correlation id and register a
`PendingRequest` only when a completion callback is supplied, then send the
frame.  Returns (new state, effects, issued id — `0` when none). -/
def sendRequest (s : EngineState) (ty path : String) (cb : Option Nat) (body : JVal) :
    EngineState × List Effect × Nat :=
  match cb with
  | some c =>
    let rid := if s.requestId + 1 > maxId then 1 else s.requestId + 1
    ({ s with requestId := rid, pendingRequests := aset s.pendingRequests rid c },
     [.send { type := ty, id := rid, path := path, body := body, error := 0 }], rid)
  | none => (s, [.send { type := ty, id := 0, path := path, body := body, error := 0 }], 0)

/-- `resp.error = body.number ? body.number : -1`: a thrown error without a
(truthy) `number` becomes code `-1`. -/
def mkErrCode (e : JErr) : Int :=
  match e.number with
  | some n => if n = 0 then -1 else n
  | none => -1

/-- `sendResponse`: nothing is sent when the inbound message carried no id;
an `Error` body becomes an error-kind response (its message as body, its
number — default `-1` — as error code). -/
def sendResponse (rid : Nat) (b : CbRes) : List Effect :=
  if rid = 0 then []
  else
    match b with
    | .val v => [.send { type := "resp", id := rid, path := "", body := v, error := 0 }]
    | .err e => [.send { type := "resp", id := rid, path := "", body := .str e.message, error := mkErrCode e }]

/-! ## Message dispatch -/

/-- `requestId` as `socketMessage` computes it: the message id unless the
message is a response. -/
def reqIdOf (m : WireMsg) : Nat := if m.type = "resp" then 0 else m.id

def unmatchedLog (id : Nat) : String :=
  "ERROR: Received response " ++ toString id ++ " with no pending request"

/-- JavaScript truthiness of a value (used by the `resp` error branch). -/
def truthy : JVal → Bool
  | .undefined => false
  | .null => false
  | .bool b => b
  | .num n => n != 0
  | .str s => s != ""
  | _ => true

mutual

/-- `toString()` of a value, to the resolution the engine needs. -/
def jstr : JVal → String
  | .undefined => "undefined"
  | .null => "null"
  | .bool b => if b then "true" else "false"
  | .num n => toString n
  | .str s => s
  | .arr xs => jstrList xs
  | .obj _ _ => "[object Object]"
  | .func _ => "function"

def jstrList : List JVal → String
  | [] => ""
  | [x] => jstr x
  | x :: y :: t => jstr x ++ "," ++ jstrList (y :: t)

end

/-- `method.apply(obj, body)` for an array body, `method.call(obj, body)`
otherwise: the argument list a `post` hands to the resolved member. -/
def argsOf : JVal → List JVal
  | .arr xs => xs
  | b => [b]

/-- The argument list handed to local listeners for an inbound `event`
(`apply(this, eventArgs)`, where `eventArgs` stays `undefined` — zero
arguments — when the event carried no body). -/
def eventArgsOf : JVal → List JVal
  | .undefined => []
  | .arr xs => xs
  | b => [b]

/-- `parsed.obj.addListener(parsed.prop, sender)`: read the duck-typed
`addListener` member and invoke it (throwing when absent or not a function);
the attachment itself is recorded by the caller as an effect. -/
def attachToGraph (fenv : FEnv) (o : JVal) (prop : String) : Except JErr Unit :=
  match getMember o "addListener" with
  | .error e => .error e
  | .ok al =>
    match invoke fenv al [.str prop] with
    | .error e => .error e
    | .ok _ => .ok ()

/-- `parsed.obj.removeListener(parsed.prop, sender)`, as `attachToGraph`. -/
def detachFromGraph (fenv : FEnv) (o : JVal) (prop : String) : Except JErr Unit :=
  match getMember o "removeListener" with
  | .error e => .error e
  | .ok rl =>
    match invoke fenv rl [.str prop] with
    | .error e => .error e
    | .ok _ => .ok ()

/-- The body of `socketMessage`'s `switch` on `message.$type`, with the
exception plumbing made explicit: the result is the state reached so far, the
effects produced so far, and the exception (if one was thrown) that the
enclosing `try/catch` will observe. -/
def processMsg (fenv : FEnv) (s : EngineState) (m : WireMsg) :
    EngineState × List Effect × Option JErr :=
  if m.type = "get" then
    match parsePath s m.path with
    | .error e => (s, [], some e)
    | .ok (pr, o) =>
      match getMember o pr.prop with
      | .error e => (s, [], some e)
      | .ok v => (s, sendResponse m.id (.val v), none)
  else if m.type = "put" then
    match parsePath s m.path with
    | .error e => (s, [], some e)
    | .ok (pr, _) =>
      match setAtPath pr.base pr.segs pr.prop m.body with
      | .error e => (s, [], some e)
      | .ok nb =>
        (if pr.usedConn then { s with connection := nb } else { s with root := some nb },
         sendResponse m.id (.val .undefined), none)
  else if m.type = "post" then
    match parsePath s m.path with
    | .error e => (s, [], some e)
    | .ok (pr, o) =>
      match getMember o pr.prop with
      | .error e => (s, [], some e)
      | .ok mth =>
        match invoke fenv mth (argsOf m.body) with
        | .error e => (s, [], some e)
        | .ok r => (s, sendResponse m.id (.val r), none)
  else if m.type = "resp" then
    match alook s.pendingRequests m.id with
    | some cb =>
      let res :=
        if m.error = 0 then CbRes.val m.body
        else CbRes.err { message := (if truthy m.body then jstr m.body else toString m.error),
                         number := some m.error }
      ({ s with pendingRequests := adel s.pendingRequests m.id }, [.invokeCb cb res], none)
    | none => (s, [.log (unmatchedLog m.id)], none)
  else if m.type = "event" then
    let ls := (alook s.listeners m.path).getD []
    (s, ls.map (fun f => Effect.callListener f (eventArgsOf m.body)) ++
        sendResponse m.id (.val .undefined), none)
  else if m.type = "listen" then
    if s.eventSenders.contains m.path then (s, sendResponse m.id (.val .undefined), none)
    else
      match parsePath s m.path with
      | .error e => (s, [], some e)
      | .ok (pr, o) =>
        let s1 := { s with eventSenders := m.path :: s.eventSenders }
        match attachToGraph fenv o pr.prop with
        | .error e => (s1, [], some e)
        | .ok _ => (s1, Effect.attach m.path :: sendResponse m.id (.val .undefined), none)
  else if m.type = "unlisten" then
    if s.eventSenders.contains m.path then
      match parsePath s m.path with
      | .error e => (s, [], some e)
      | .ok (pr, o) =>
        match detachFromGraph fenv o pr.prop with
        | .error e => (s, [], some e)
        | .ok _ =>
          ({ s with eventSenders := s.eventSenders.erase m.path },
           Effect.detach m.path :: sendResponse m.id (.val .undefined), none)
    else (s, sendResponse m.id (.val .undefined), none)
  else (s, [], some (typeErr ("Request type '" ++ m.type ++ "' is not supported.")))

/-- An inbound transport frame: a binary frame, an unparseable text frame, or
a parsed message. -/
inductive Inbound where
  | binary : Inbound
  | malformed : Inbound
  | msg : WireMsg → Inbound

/-- `socketMessage`: binary frames get the 4-byte "not supported" sentinel
and nothing else; otherwise the message is dispatched, and any exception is
caught here — logged, and turned into an error response when the inbound
message was a request carrying an id. -/
def socketMessage (fenv : FEnv) (s : EngineState) (fr : Inbound) : EngineState × List Effect :=
  match fr with
  | .binary => (s, [.sendBinary [0x00, 0x00, 0xE0, 0x80]])
  | .malformed => (s, [.logEx (typeErr "Unexpected token in JSON")])
  | .msg m =>
    match processMsg fenv s m with
    | (s1, effs, none) => (s1, effs)
    | (s1, effs, some e) =>
      (s1, effs ++ [Effect.logEx e] ++ sendResponse (reqIdOf m) (.err e))

/-! ## Public listener API -/

/-- `CogSocket.prototype.addListener`: append to an existing registration
(completing immediately), or create the registration and send `listen`. -/
def addListener (s : EngineState) (path : String) (f : Nat) (cb : Option Nat) :
    EngineState × List Effect :=
  match alook s.listeners path with
  | some ls =>
    ({ s with listeners := aupd s.listeners path (ls ++ [f]) },
     match cb with
     | some c => [Effect.invokeCb c (.val .undefined)]
     | none => [])
  | none =>
    let s1 := { s with listeners := aset s.listeners path [f] }
    let r := sendRequest s1 "listen" path cb .undefined
    (r.1, r.2.1)

/-- `CogSocket.prototype.removeListener`: remove the first matching listener
(or all of them when none is specified); when the registration empties,
delete it and send `unlisten`, otherwise complete immediately. -/
def removeListener (s : EngineState) (path : String) (f : Option Nat) (cb : Option Nat) :
    EngineState × List Effect :=
  match alook s.listeners path with
  | none =>
    (s, match cb with
        | some c => [Effect.invokeCb c (.val .undefined)]
        | none => [])
  | some ls =>
    match f with
    | some g =>
      let ls2 := ls.erase g
      if ls2.isEmpty then
        let s1 := { s with listeners := adel s.listeners path }
        let r := sendRequest s1 "unlisten" path cb .undefined
        (r.1, r.2.1)
      else
        ({ s with listeners := aupd s.listeners path ls2 },
         match cb with
         | some c => [Effect.invokeCb c (.val .undefined)]
         | none => [])
    | none =>
      let s1 := { s with listeners := adel s.listeners path }
      let r := sendRequest s1 "unlisten" path cb .undefined
      (r.1, r.2.1)

/-! ## The public socket object and `close` -/

/-- The `CogSocket` as seen from outside: its `_priv` record, which `close`
deletes. -/
structure Sock where
  priv : Option EngineState

/-- `CogSocket.prototype.close`: close the transport and delete `_priv`; a
second call finds no `_priv` and does nothing. -/
def close (c : Sock) : Sock × List Effect :=
  match c.priv with
  | some _ => ({ priv := none }, [Effect.wsClose])
  | none => (c, [])

/-! ## Listener-API call sequences (for the lifecycle property) -/

inductive LCall where
  | add : Nat → LCall
  | rem : Nat → LCall
deriving DecidableEq

def applyCall (s : EngineState) (p : String) : LCall → EngineState × List Effect
  | .add f => addListener s p f none
  | .rem f => removeListener s p (some f) none

def runCalls (s : EngineState) (p : String) : List LCall → EngineState × List Effect
  | [] => (s, [])
  | c :: t =>
    let r1 := applyCall s p c
    let r2 := runCalls r1.1 p t
    (r2.1, r1.2 ++ r2.2)

def isReqFor (ty p : String) : Effect → Bool
  | .send m => m.type == ty && m.path == p
  | _ => false

/-- Number of sent frames of kind `ty` addressed to path `p`. -/
def countReq (effs : List Effect) (ty p : String) : Nat := effs.countP (isReqFor ty p)

/-- N `addListener(p, f)` calls followed by N `removeListener(p, f)` calls. -/
def nCalls (N : Nat) (f : Nat) : List LCall :=
  List.replicate N (LCall.add f) ++ List.replicate N (LCall.rem f)


/-! ## Auxiliary definitions for statements and witnesses -/

/-- `sendRequest` iterated on requests that expect a response: the engine
after `n` such requests. -/
def allocN (s : EngineState) : Nat → EngineState
  | 0 => s
  | n + 1 => (sendRequest (allocN s n) "get" "x" (some 0) .undefined).1

/-- Predicate on a value: it is not a container (so member reads on it yield
`undefined` or throw, and it can never walk to an object). -/
def scalarish : JVal → Bool
  | .obj _ _ => false
  | .arr _ => false
  | _ => true

/-- A function environment with no usable functions (for witnesses whose
scenario invokes none). -/
def fenv0 : FEnv := fun _ _ => .error (typeErr "no such function")

/-- Witness environment: tag 1 adds two numbers, and echoes a single
non-pair argument wrapped in an array (so the call arity is observable). -/
def postEnv : FEnv := fun _ args =>
  match args with
  | [.num a, .num b] => .ok (.num (a + b))
  | [v] => .ok (.arr [v])
  | _ => .error (typeErr "bad args")

/-- Witness root: `state`, and an operation at `a/b/op` (function tag 1). -/
def appRoot : JVal :=
  .obj false [("state", .str "Idle"), ("a", .obj false [("b", .obj false [("op", .func 1)])])]

def appState : EngineState := initEngine (some appRoot)

/-- Witness engine with two pending requests (ids 1 and 2). -/
def pendState : EngineState :=
  { requestId := 2, pendingRequests := [(1, 10), (2, 20)], listeners := [], eventSenders := [],
    root := none, connection := connObj }

/-- Witness engine for the put-then-get roundtrip: root with member `m`. -/
def rtState : EngineState := initEngine (some (.obj false [("m", .num 0)]))

/-- `rtState` after `put m := true`. -/
def rtState2 : EngineState := { rtState with root := some (.obj false [("m", .bool true)]) }

/-- A stand-in identity record returned by the modelled `hello` (the real
one is computed from the host environment, which no claim depends on). -/
def localInfoVal : JVal := .obj false [("name", .str "Browser"), ("model", .str "Browser")]

/-- Environment giving the `hello` tag its handshake behaviour: accept the
peer's identity record and return this endpoint's identity record. -/
def helloEnv : FEnv := fun _ _ => .ok localInfoVal

/-- The `listen` request frame `addListener` sends when no completion
callback is supplied (no id is allocated). -/
def listenSend (p : String) : Effect :=
  .send { type := "listen", id := 0, path := p, body := .undefined, error := 0 }

/-- The `unlisten` request frame `removeListener` sends when the
registration empties. -/
def unlistenSend (p : String) : Effect :=
  .send { type := "unlisten", id := 0, path := p, body := .undefined, error := 0 }

/-! ## Association-list lemmas -/

theorem alook_aupd_self {κ α : Type} [DecidableEq κ] (l : List (κ × α)) (k : κ) (v : α)
    (h : (alook l k).isSome) : alook (aupd l k v) k = some v := by
  induction l with
  | nil => simp [alook] at h
  | cons hd t ih =>
    obtain ⟨k', v'⟩ := hd
    by_cases hk : k' = k
    · simp [alook, aupd, hk]
    · simp [alook, aupd, hk] at h ⊢
      exact ih h

theorem alook_append_of_none {κ α : Type} [DecidableEq κ] (l l2 : List (κ × α)) (k : κ)
    (h : alook l k = none) : alook (l ++ l2) k = alook l2 k := by
  induction l with
  | nil => simp
  | cons hd t ih =>
    obtain ⟨k', v'⟩ := hd
    by_cases hk : k' = k
    · simp [alook, hk] at h
    · simp [alook, hk] at h ⊢
      exact ih h

theorem alook_aset_self {κ α : Type} [DecidableEq κ] (l : List (κ × α)) (k : κ) (v : α) :
    alook (aset l k v) k = some v := by
  unfold aset
  by_cases h : (alook l k).isSome
  · simp [h, alook_aupd_self l k v h]
  · have hn : alook l k = none := by
      cases hv : alook l k
      · rfl
      · simp [hv] at h
    simp [h]
    rw [alook_append_of_none l [(k, v)] k hn]
    simp [alook]

theorem alook_adel_self {κ α : Type} [DecidableEq κ] (l : List (κ × α)) (k : κ) :
    alook (adel l k) k = none := by
  induction l with
  | nil => simp [alook, adel]
  | cons hd t ih =>
    obtain ⟨k', v'⟩ := hd
    by_cases hk : k' = k
    · simp [adel, hk, ih]
    · simp [adel, alook, hk, ih]

/-! ## Claim theorems -/

/-- Claim C2: correlation ids for requests expecting a response are never 0,
never exceed the maximum positive 31-bit value, and each is the successor of
the previous one except that the allocation following `0x7FFFFFFF` yields 1;
fire-and-forget requests allocate nothing; and on a fresh engine the n-th
allocated id is exactly n for every n up to the wrap bound (hence the issued
sequence is strictly increasing until the wrap). -/
theorem claim_C2_correlation_ids :
    (∀ (s : EngineState) (ty path : String) (body : JVal) (c : Nat),
      s.requestId ≤ maxId →
      (sendRequest s ty path (some c) body).2.2 ≠ 0 ∧
      (sendRequest s ty path (some c) body).2.2 ≤ maxId ∧
      ((sendRequest s ty path (some c) body).1).requestId = (sendRequest s ty path (some c) body).2.2 ∧
      (s.requestId < maxId → (sendRequest s ty path (some c) body).2.2 = s.requestId + 1) ∧
      (s.requestId = maxId → (sendRequest s ty path (some c) body).2.2 = 1)) ∧
    (∀ (s : EngineState) (ty path : String) (body : JVal),
      (sendRequest s ty path none body).2.2 = 0 ∧ (sendRequest s ty path none body).1 = s) ∧
    (∀ (root : Option JVal) (n : Nat), n ≤ maxId → (allocN (initEngine root) n).requestId = n) := by
  refine ⟨?_, ?_, ?_⟩
  · intro s ty path body c h
    simp only [sendRequest, maxId] at h ⊢
    by_cases hgt : s.requestId + 1 > 2147483647
    · simp [hgt]
      omega
    · simp [hgt]
      omega
  · intro s ty path body
    simp [sendRequest]
  · intro root n
    induction n with
    | zero => intro _; rfl
    | succ k ih =>
      intro h
      simp only [maxId] at h
      have hk : (allocN (initEngine root) k).requestId = k := ih (by simp only [maxId]; omega)
      simp only [allocN, sendRequest, hk, maxId]
      have hn : ¬ (k + 1 > 2147483647) := by omega
      simp [hn]

/-- Witness for C2: a fresh engine satisfies the hypothesis, and its first
allocation yields id 1. -/
theorem claim_C2_correlation_ids_witness :
    (initEngine none).requestId ≤ maxId ∧
    (sendRequest (initEngine none) "get" "p" (some 7) .undefined).2.2 ≠ 0 := by
  refine ⟨by decide, ?_⟩
  exact (claim_C2_correlation_ids.1 (initEngine none) "get" "p" .undefined 7 (by decide)).1

/-- Claim C6: a `resp` whose id matches no pending request is only logged —
handling it returns normally, sends nothing, invokes nothing, and leaves the
whole engine state (in particular every other pending request) unchanged. -/
theorem claim_C6_unmatched_resp (fenv : FEnv) (s : EngineState) (m : WireMsg)
    (ht : m.type = "resp") (hl : alook s.pendingRequests m.id = none) :
    socketMessage fenv s (.msg m) = (s, [Effect.log (unmatchedLog m.id)]) := by
  simp [socketMessage, processMsg, ht, hl]

/-- Witness for C6: an engine with pending ids 1 and 2 receiving a response
for id 99. -/
theorem claim_C6_unmatched_resp_witness :
    socketMessage fenv0 pendState (.msg { type := "resp", id := 99, path := "", body := .undefined, error := 0 }) =
      (pendState, [Effect.log (unmatchedLog 99)]) :=
  claim_C6_unmatched_resp fenv0 pendState _ rfl rfl

/-- Claim C8: a binary inbound frame elicits exactly the 4-byte sentinel
`00 00 E0 80` and nothing else: no message is dispatched and the engine state
is returned unchanged. -/
theorem claim_C8_binary_sentinel (fenv : FEnv) (s : EngineState) :
    socketMessage fenv s .binary = (s, [Effect.sendBinary [0x00, 0x00, 0xE0, 0x80]]) := rfl

/-- Claim C10: `close` is idempotent at the public interface: the first call
on a live socket closes the transport and discards `_priv`; any call on an
already-closed socket changes nothing and produces no effect (and, being a
total function, never throws). -/
theorem claim_C10_close_idempotent (c : Sock) :
    (∀ s, c.priv = some s → close c = ({ priv := none }, [Effect.wsClose])) ∧
    close (close c).1 = ((close c).1, []) := by
  constructor
  · intro s hs
    simp [close, hs]
  · cases hc : c.priv <;> simp [close, hc]

/-- Witness for C10: a live socket. -/
theorem claim_C10_close_idempotent_witness :
    close { priv := some (initEngine none) } = ({ priv := none }, [Effect.wsClose]) :=
  (claim_C10_close_idempotent { priv := some (initEngine none) }).1 (initEngine none) rfl


/-- Claim C3: for get/put/post/listen/unlisten messages, an exception raised
during path resolution or member access/invocation is caught by the message
handler (`socketMessage` returns normally — in the embedding it is a total
function); nothing was sent before the exception, and when the inbound
message carried an id the exception is converted into a `resp` frame
addressed to that id carrying a nonzero error code (and nothing is sent when
it carried none). -/
theorem claim_C3_exceptions_caught (fenv : FEnv) (s : EngineState) (m : WireMsg)
    (s1 : EngineState) (effs : List Effect) (e : JErr)
    (hk : m.type = "get" ∨ m.type = "put" ∨ m.type = "post" ∨ m.type = "listen" ∨ m.type = "unlisten")
    (hp : processMsg fenv s m = (s1, effs, some e)) :
    effs = [] ∧
    socketMessage fenv s (.msg m) =
      (s1, [Effect.logEx e] ++
        (if m.id = 0 then []
         else [Effect.send { type := "resp", id := m.id, path := "", body := .str e.message, error := mkErrCode e }])) ∧
    mkErrCode e ≠ 0 := by
  have hnr : m.type ≠ "resp" := by
    rcases hk with h | h | h | h | h <;> simp [h]
  have heffs : effs = [] := by
    rcases hk with h | h | h | h | h <;>
      simp only [processMsg, h, if_true, if_false, reduceIte] at hp <;>
      (repeat' split at hp) <;> simp_all
  have hcode : mkErrCode e ≠ 0 := by
    unfold mkErrCode
    cases hn : e.number with
    | none => decide
    | some n =>
      by_cases h0 : n = 0 <;> simp [h0]
  refine ⟨heffs, ?_, hcode⟩
  simp only [socketMessage, hp, heffs]
  simp [reqIdOf, hnr, sendResponse]

/-- Witness for C3: a `get` arriving at an engine configured with no root
object throws during resolution; the handler converts it into an error
response for id 1. -/
theorem claim_C3_exceptions_caught_witness :
    socketMessage fenv0 (initEngine none) (.msg { type := "get", id := 1, path := "x", body := .undefined, error := 0 }) =
      ((initEngine none), [Effect.logEx noRootErr] ++
        [Effect.send { type := "resp", id := 1, path := "", body := .str noRootErr.message, error := mkErrCode noRootErr }]) := by
  have h := claim_C3_exceptions_caught fenv0 (initEngine none)
    { type := "get", id := 1, path := "x", body := .undefined, error := 0 }
    (initEngine none) [] noRootErr (Or.inl rfl) rfl
  simpa using h.2.1


/-- Claim C5: an inbound `post` resolves its path, invokes the resolved
member with the body's elements as positional arguments when the body is an
array, and with the body itself as the single argument otherwise; the
member's return value is sent back as the response body (and the engine
state is unchanged). -/
theorem claim_C5_post_arguments (fenv : FEnv) (s : EngineState) (m : WireMsg)
    (pr : Parsed) (o : JVal) (n : Nat)
    (ht : m.type = "post")
    (hp : parsePath s m.path = .ok (pr, o))
    (hm : getMember o pr.prop = .ok (.func n)) :
    (∀ xs r, m.body = .arr xs → fenv n xs = .ok r →
      socketMessage fenv s (.msg m) = (s, sendResponse m.id (CbRes.val r))) ∧
    (∀ r, (∀ xs, m.body ≠ .arr xs) → fenv n [m.body] = .ok r →
      socketMessage fenv s (.msg m) = (s, sendResponse m.id (CbRes.val r))) := by
  constructor
  · intro xs r hb hr
    simp [socketMessage, processMsg, ht, hp, hm, invoke, argsOf, hb, hr]
  · intro r hb hr
    have hargs : argsOf m.body = [m.body] := by
      cases hc : m.body <;> simp [argsOf]
      exact absurd hc (hb _)
    simp [socketMessage, processMsg, ht, hp, hm, invoke, hargs, hr]

/-- Witness for C5: a `post` to `a/b/op` with body `[1,2]` makes the
operation (which adds two numbers) return 3; with the non-array body
`{"x":1}` the operation receives exactly one argument (it echoes its single
argument wrapped in an array). -/
theorem claim_C5_post_arguments_witness :
    socketMessage postEnv appState
        (.msg { type := "post", id := 1, path := "a/b/op", body := .arr [.num 1, .num 2], error := 0 }) =
      (appState, [Effect.send { type := "resp", id := 1, path := "", body := .num 3, error := 0 }]) ∧
    socketMessage postEnv appState
        (.msg { type := "post", id := 2, path := "a/b/op", body := .obj false [("x", .num 1)], error := 0 }) =
      (appState, [Effect.send { type := "resp", id := 2, path := "", body := .arr [.obj false [("x", .num 1)]], error := 0 }]) := by
  constructor
  · exact (claim_C5_post_arguments postEnv appState
      { type := "post", id := 1, path := "a/b/op", body := .arr [.num 1, .num 2], error := 0 }
      { base := appRoot, usedConn := false, segs := ["a", "b"], prop := "op" }
      (.obj false [("op", .func 1)]) 1 rfl rfl rfl).1
      [.num 1, .num 2] (.num 3) rfl rfl
  · exact (claim_C5_post_arguments postEnv appState
      { type := "post", id := 2, path := "a/b/op", body := .obj false [("x", .num 1)], error := 0 }
      { base := appRoot, usedConn := false, segs := ["a", "b"], prop := "op" }
      (.obj false [("op", .func 1)]) 1 rfl rfl rfl).2
      (.arr [.obj false [("x", .num 1)]]) (fun xs h => by cases h) rfl


/-! ## Walk/update lemmas for the put-then-get roundtrip -/

theorem walk_scalarish (segs : List String) : ∀ (v w : JVal), scalarish v = true →
    walk v segs = .ok w → scalarish w = true := by
  induction segs with
  | nil =>
    intro v w hv hw
    simp [walk] at hw
    subst hw
    exact hv
  | cons a rest ih =>
    intro v w hv hw
    cases v with
    | undefined => simp [walk, getMember] at hw
    | null => simp [walk, getMember] at hw
    | bool b => simp only [walk, getMember] at hw; exact ih .undefined w rfl hw
    | num n => simp only [walk, getMember] at hw; exact ih .undefined w rfl hw
    | str t => simp only [walk, getMember] at hw; exact ih .undefined w rfl hw
    | func n => simp only [walk, getMember] at hw; exact ih .undefined w rfl hw
    | arr xs => simp [scalarish] at hv
    | obj fr fl => simp [scalarish] at hv

theorem getD_set_self {α : Type} : ∀ (xs : List α) (i : Nat) (x d : α), i < xs.length →
    (xs.set i x).getD i d = x := by
  intro xs
  induction xs with
  | nil => intro i x d h; simp at h
  | cons hd t ih =>
    intro i x d h
    cases i with
    | zero => simp
    | succ n =>
      simp only [List.set]
      rw [List.getD_cons_succ]
      exact ih n x d (by simpa using h)

theorem getD_of_ge {α : Type} : ∀ (xs : List α) (i : Nat) (d : α), xs.length ≤ i →
    xs.getD i d = d := by
  intro xs
  induction xs with
  | nil => intro i d _; cases i <;> rfl
  | cons hd t ih =>
    intro i d h
    cases i with
    | zero => simp at h
    | succ n =>
      rw [List.getD_cons_succ]
      exact ih n d (by simpa using h)

/-- Walking to a plain object, assigning the final member through the
resolved reference, and re-walking the same prefix reads the updated object:
the functional-update translation of the source's by-reference assignment. -/
theorem setAtPath_roundtrip : ∀ (segs : List String) (b : JVal) (fl : List (String × JVal))
    (prop : String) (v : JVal), walk b segs = .ok (.obj false fl) →
    ∃ b2, setAtPath b segs prop v = .ok b2 ∧
      walk b2 segs = .ok (.obj false (aset fl prop v)) := by
  intro segs
  induction segs with
  | nil =>
    intro b fl prop v hw
    simp [walk] at hw
    subst hw
    refine ⟨.obj false (aset fl prop v), ?_, ?_⟩
    · simp [setAtPath, setMember]
    · simp [walk]
  | cons a rest ih =>
    intro b fl prop v hw
    simp only [walk] at hw
    cases hm : getMember b a with
    | error e => rw [hm] at hw; simp at hw
    | ok m =>
      rw [hm] at hw
      obtain ⟨m2, hset, hw2⟩ := ih m fl prop v hw
      have hnotscal : ¬ (scalarish m = true) := by
        intro hsc
        have := walk_scalarish rest m _ hsc hw
        simp [scalarish] at this
      have hg : getMember (replaceChild b a m2) a = .ok m2 := by
        cases b with
        | undefined => simp [getMember] at hm
        | null => simp [getMember] at hm
        | bool bb =>
          have hmu : JVal.undefined = m := by simpa [getMember] using hm
          exact absurd (hmu ▸ rfl) hnotscal
        | num nn =>
          have hmu : JVal.undefined = m := by simpa [getMember] using hm
          exact absurd (hmu ▸ rfl) hnotscal
        | str ss =>
          have hmu : JVal.undefined = m := by simpa [getMember] using hm
          exact absurd (hmu ▸ rfl) hnotscal
        | func fn =>
          have hmu : JVal.undefined = m := by simpa [getMember] using hm
          exact absurd (hmu ▸ rfl) hnotscal
        | obj fr bfl =>
          have hm2 : (alook bfl a).getD .undefined = m := by simpa [getMember] using hm
          cases hl : alook bfl a with
          | none =>
            rw [hl] at hm2
            simp at hm2
            exact absurd (hm2 ▸ rfl) hnotscal
          | some m0 =>
            rw [hl] at hm2
            simp at hm2
            subst hm2
            simp only [replaceChild, getMember]
            rw [alook_aupd_self bfl a m2 (by rw [hl]; rfl)]
            rfl
        | arr xs =>
          simp only [getMember] at hm
          by_cases hlen : a = "length"
          · rw [if_pos hlen] at hm
            have hmu : JVal.num (Int.ofNat xs.length) = m := by simpa using hm
            exact absurd (hmu ▸ rfl) hnotscal
          · rw [if_neg hlen] at hm
            cases hidx : toIndex a with
            | none =>
              rw [hidx] at hm
              have hmu : JVal.undefined = m := by simpa using hm
              exact absurd (hmu ▸ rfl) hnotscal
            | some i =>
              rw [hidx] at hm
              have hmi : xs.getD i .undefined = m := by simpa using hm
              by_cases hi : i < xs.length
              · simp only [replaceChild, hidx, getMember, if_neg hlen]
                rw [getD_set_self xs i m2 .undefined hi]
              · have : xs.getD i .undefined = JVal.undefined := getD_of_ge xs i .undefined (by omega)
                rw [this] at hmi
                exact absurd (hmi ▸ rfl) hnotscal
      refine ⟨replaceChild b a m2, ?_, ?_⟩
      · simp only [setAtPath, hm, hset]
      · simp only [walk, hg, hw2]


/-- Updating the designated root (as a `put` does) does not change how a path
is split, only the base object subsequent resolution starts from. -/
theorem splitPath_update (s : EngineState) (p : String) (pr : Parsed) (nb : JVal)
    (hs : splitPath s p = .ok pr) :
    splitPath (if pr.usedConn then { s with connection := nb } else { s with root := some nb }) p
      = .ok { pr with base := nb } := by
  simp only [splitPath] at hs ⊢
  cases hc : isConnPath p.toList with
  | true =>
    rw [hc] at hs
    simp only [if_true] at hs ⊢
    obtain rfl := (Except.ok.inj hs)
    simp [hc]
  | false =>
    rw [hc] at hs
    simp only [if_false, Bool.false_eq_true] at hs ⊢
    cases hr : s.root with
    | none => rw [hr] at hs; simp at hs
    | some b =>
      rw [hr] at hs
      obtain rfl := (Except.ok.inj hs)
      simp [hc]

/-- Claim C7: putting `v` at a path that resolves to a member of a plain
(unfrozen) object and then getting the same path yields a response whose
body is exactly `v`. -/
theorem claim_C7_put_then_get (fenv : FEnv) (s : EngineState) (p : String) (v : JVal)
    (id1 id2 : Nat) (pr : Parsed) (fl : List (String × JVal))
    (hs : splitPath s p = .ok pr)
    (hw : walk pr.base pr.segs = .ok (.obj false fl))
    (hid : id2 ≠ 0) :
    ∃ s2,
      socketMessage fenv s (.msg { type := "put", id := id1, path := p, body := v, error := 0 }) =
        (s2, sendResponse id1 (CbRes.val .undefined)) ∧
      socketMessage fenv s2 (.msg { type := "get", id := id2, path := p, body := .undefined, error := 0 }) =
        (s2, [Effect.send { type := "resp", id := id2, path := "", body := v, error := 0 }]) := by
  obtain ⟨b2, hset, hw2⟩ := setAtPath_roundtrip pr.segs pr.base fl pr.prop v hw
  refine ⟨if pr.usedConn then { s with connection := b2 } else { s with root := some b2 }, ?_, ?_⟩
  · have hpp : parsePath s p = .ok (pr, .obj false fl) := by
      simp [parsePath, hs, hw]
    simp [socketMessage, processMsg, hpp, hset]
  · have hsplit2 : splitPath (if pr.usedConn then { s with connection := b2 } else { s with root := some b2 }) p
        = .ok { pr with base := b2 } := splitPath_update s p pr b2 hs
    have hpp2 : parsePath (if pr.usedConn then { s with connection := b2 } else { s with root := some b2 }) p
        = .ok ({ pr with base := b2 }, .obj false (aset fl pr.prop v)) := by
      simp [parsePath, hsplit2, hw2]
    have hget : getMember (JVal.obj false (aset fl pr.prop v)) pr.prop = .ok v := by
      simp [getMember, alook_aset_self]
    simp [socketMessage, processMsg, hpp2, hget, sendResponse, hid]

/-- Witness for C7: `put m := true` then `get m` on a root exposing `m`. -/
theorem claim_C7_put_then_get_witness :
    socketMessage fenv0 rtState (.msg { type := "put", id := 1, path := "m", body := .bool true, error := 0 }) =
      (rtState2, sendResponse 1 (CbRes.val .undefined)) ∧
    socketMessage fenv0 rtState2 (.msg { type := "get", id := 2, path := "m", body := .undefined, error := 0 }) =
      (rtState2, [Effect.send { type := "resp", id := 2, path := "", body := .bool true, error := 0 }]) := by
  obtain ⟨s2, h1, h2⟩ := claim_C7_put_then_get fenv0 rtState "m" (.bool true) 1 2
    { base := .obj false [("m", .num 0)], usedConn := false, segs := [], prop := "m" }
    [("m", .num 0)] rfl rfl (by decide)
  have h1b : socketMessage fenv0 rtState (.msg { type := "put", id := 1, path := "m", body := .bool true, error := 0 }) =
      (rtState2, sendResponse 1 (CbRes.val .undefined)) := rfl
  have hx : s2 = rtState2 := by
    have hcomb := h1.symm.trans h1b
    exact congrArg Prod.fst hcomb
  rw [hx] at h1 h2
  exact ⟨h1, h2⟩


/-! ## Claims C4 and C9 (corrected) -/

theorem mkErrCode_ne_zero (e : JErr) : mkErrCode e ≠ 0 := by
  unfold mkErrCode
  cases hn : e.number with
  | none => decide
  | some n => by_cases h0 : n = 0 <;> simp [h0]

theorem parsePath_inv (s : EngineState) (p : String) (pr : Parsed) (o : JVal)
    (h : parsePath s p = .ok (pr, o)) :
    splitPath s p = .ok pr ∧ walk pr.base pr.segs = .ok o := by
  cases hs2 : splitPath s p with
  | error e => simp [parsePath, hs2] at h
  | ok pr2 =>
    simp only [parsePath, hs2] at h
    cases hw2 : walk pr2.base pr2.segs with
    | error e => simp [hw2] at h
    | ok o2 =>
      simp only [hw2] at h
      have h2 : pr2 = pr ∧ o2 = o := by simpa using h
      cases h2 with
      | intro he1 he2 =>
        subst he1
        subst he2
        exact ⟨rfl, hw2⟩

/-- Countermodel for claim C4 as stated: a `get` for the path `missing`,
whose final (leaf) member is absent from the otherwise-resolvable root
object, is answered with a SUCCESS response (`error` field `0`, i.e. absent,
and an `undefined` body) rather than an error-kind response: in JavaScript
reading a missing property of an object yields `undefined` without throwing,
so no `ResolutionError` arises for a missing leaf. -/
theorem claim_C4_counterexample :
    socketMessage fenv0 appState
        (.msg { type := "get", id := 1, path := "missing", body := .undefined, error := 0 }) =
      (appState, [Effect.send { type := "resp", id := 1, path := "", body := .undefined, error := 0 }]) ∧
    (WireMsg.mk "resp" 1 "" .undefined 0).error = 0 :=
  ⟨rfl, rfl⟩

/-- Claim C4 as amended: (1) when path RESOLUTION itself throws (no root
configured, or a missing intermediate member is dereferenced), the failure is
converted at the message-handling boundary into an error-kind response
addressed to the originating id when one exists; but (2) a `get` whose path
splits and walks fine and merely lacks the final leaf member on a resolvable
object is answered with a success response carrying an `undefined` body, not
an error. -/
theorem claim_C4_amended :
    (∀ (fenv : FEnv) (s : EngineState) (m : WireMsg) (e : JErr),
      (m.type = "get" ∨ m.type = "put" ∨ m.type = "post" ∨
        (m.type = "listen" ∧ s.eventSenders.contains m.path = false) ∨
        (m.type = "unlisten" ∧ s.eventSenders.contains m.path = true)) →
      parsePath s m.path = .error e →
      m.id ≠ 0 →
      socketMessage fenv s (.msg m) =
        (s, [Effect.logEx e,
             Effect.send { type := "resp", id := m.id, path := "", body := .str e.message, error := mkErrCode e }]) ∧
      mkErrCode e ≠ 0) ∧
    (∀ (fenv : FEnv) (s : EngineState) (m : WireMsg) (pr : Parsed) (fr : Bool)
       (fl : List (String × JVal)),
      m.type = "get" →
      splitPath s m.path = .ok pr →
      walk pr.base pr.segs = .ok (.obj fr fl) →
      alook fl pr.prop = none →
      m.id ≠ 0 →
      socketMessage fenv s (.msg m) =
        (s, [Effect.send { type := "resp", id := m.id, path := "", body := .undefined, error := 0 }])) := by
  constructor
  · intro fenv s m e hk hp hid
    refine ⟨?_, mkErrCode_ne_zero e⟩
    rcases hk with ht | ht | ht | ⟨ht, hc⟩ | ⟨ht, hc⟩
    · simp [socketMessage, processMsg, ht, hp, reqIdOf, sendResponse, hid]
    · simp [socketMessage, processMsg, ht, hp, reqIdOf, sendResponse, hid]
    · simp [socketMessage, processMsg, ht, hp, reqIdOf, sendResponse, hid]
    · have hc2 : ¬ (m.path ∈ s.eventSenders) := by simpa using hc
      simp [socketMessage, processMsg, ht, hp, hc2, reqIdOf, sendResponse, hid]
    · have hc2 : m.path ∈ s.eventSenders := by simpa using hc
      simp [socketMessage, processMsg, ht, hp, hc2, reqIdOf, sendResponse, hid]
  · intro fenv s m pr fr fl ht hs hw hl hid
    have hpp : parsePath s m.path = .ok (pr, .obj fr fl) := by
      simp [parsePath, hs, hw]
    have hgm : getMember (JVal.obj fr fl) pr.prop = .ok .undefined := by
      simp [getMember, hl]
    simp [socketMessage, processMsg, ht, hpp, hgm, sendResponse, hid]

/-- Witness for the amended C4: a missing INTERMEDIATE member
(`nope/x/y`: reading `x` off `undefined` throws) yields an error response,
while a missing LEAF member (`missing`) yields a success response with an
undefined body. -/
theorem claim_C4_amended_witness :
    socketMessage fenv0 appState
        (.msg { type := "get", id := 2, path := "nope/x/y", body := .undefined, error := 0 }) =
      (appState,
        [Effect.logEx (typeErr "Cannot read properties of undefined (reading 'x')"),
         Effect.send { type := "resp", id := 2, path := "",
                       body := .str "Cannot read properties of undefined (reading 'x')", error := -1 }]) ∧
    socketMessage fenv0 appState
        (.msg { type := "get", id := 3, path := "missing", body := .undefined, error := 0 }) =
      (appState, [Effect.send { type := "resp", id := 3, path := "", body := .undefined, error := 0 }]) := by
  constructor
  · exact (claim_C4_amended.1 fenv0 appState
      { type := "get", id := 2, path := "nope/x/y", body := .undefined, error := 0 }
      (typeErr "Cannot read properties of undefined (reading 'x')")
      (Or.inl rfl) rfl (by decide)).1
  · exact claim_C4_amended.2 fenv0 appState
      { type := "get", id := 3, path := "missing", body := .undefined, error := 0 }
      { base := appRoot, usedConn := false, segs := [], prop := "missing" }
      false [("state", .str "Idle"), ("a", .obj false [("b", .obj false [("op", .func 1)])])]
      rfl rfl rfl rfl (by decide)


theorem setAtPath_undef_error (segs : List String) (prop : String) (v : JVal) :
    ∃ e, setAtPath JVal.undefined segs prop v = .error e := by
  cases segs with
  | nil => exact ⟨_, rfl⟩
  | cons a t => exact ⟨_, rfl⟩

/-- Assignments addressed into the frozen connection object never change it:
a direct member write is a sloppy-mode silent no-op, a write on the `hello`
function reference is likewise inert, and any deeper path dereferences
`undefined` and throws. -/
theorem setAtPath_connObj_inert (segs : List String) (prop : String) (v : JVal) (b2 : JVal)
    (h : setAtPath connObj segs prop v = .ok b2) : b2 = connObj := by
  cases segs with
  | nil =>
    simp only [setAtPath, connObj, setMember] at h
    exact (Except.ok.inj h).symm
  | cons a t =>
    by_cases ha : a = "hello"
    · subst ha
      cases t with
      | nil =>
        have hc : setAtPath connObj ["hello"] prop v = .ok connObj := rfl
        rw [hc] at h
        exact (Except.ok.inj h).symm
      | cons b t2 =>
        obtain ⟨e, he⟩ := setAtPath_undef_error t2 prop v
        have hred : setAtPath connObj ("hello" :: b :: t2) prop v = .error e := by
          simp [setAtPath, getMember, connObj, alook, he]
        rw [hred] at h
        exact absurd h (by simp)
    · obtain ⟨e, he⟩ := setAtPath_undef_error t prop v
      have hne : ¬ ("hello" = a) := fun hh => ha hh.symm
      have hga : getMember connObj a = .ok .undefined := by
        simp [getMember, connObj, alook, hne]
      have hred : setAtPath connObj (a :: t) prop v = .error e := by
        simp [setAtPath, hga, he]
      rw [hred] at h
      exact absurd h (by simp)

/-- A reserved-prefix path splits against the connection object. -/
theorem splitPath_conn (s : EngineState) (path : String) (pr : Parsed)
    (hc : isConnPath path.toList = true) (h : splitPath s path = .ok pr) :
    pr.base = s.connection ∧ pr.usedConn = true := by
  simp only [splitPath, hc, if_true] at h
  obtain rfl := Except.ok.inj h
  exact ⟨rfl, rfl⟩

/-- A split that reports `usedConn` started from the connection object. -/
theorem splitPath_base_conn (s : EngineState) (path : String) (pr : Parsed)
    (h : splitPath s path = .ok pr) (hu : pr.usedConn = true) :
    pr.base = s.connection := by
  cases hc : isConnPath path.toList with
  | true => exact (splitPath_conn s path pr hc h).1
  | false =>
    simp only [splitPath, hc, if_false, Bool.false_eq_true] at h
    cases hr : s.root with
    | none => rw [hr] at h; simp at h
    | some b =>
      rw [hr] at h
      obtain rfl := Except.ok.inj h
      simp at hu

/-- Countermodel for claim C9 as stated: a `put` addressed to the reserved
path `@/x` is NOT rejected — the sloppy-mode write to the frozen connection
object silently does nothing and the engine answers with a SUCCESS response
(`error` field `0`); the engine state (connection object included) is
returned unchanged. -/
theorem claim_C9_counterexample :
    socketMessage fenv0 appState
        (.msg { type := "put", id := 1, path := "@/x", body := .num 5, error := 0 }) =
      (appState, [Effect.send { type := "resp", id := 1, path := "", body := .undefined, error := 0 }]) ∧
    (WireMsg.mk "resp" 1 "" .undefined 0).error = 0 :=
  ⟨rfl, rfl⟩

/-- Claim C9 as amended: after construction the connection object is indeed
structurally immutable and `hello` is its only invocable operation, but puts
are silently ignored rather than rejected: (1) any `put` addressed under the
reserved prefix leaves the connection object exactly as constructed; (2) a
`post` to any reserved single-segment member other than `hello` fails with an
error-kind response (invoking a missing member throws); (3) a `post` to
`hello` invokes the handshake and responds with its return value. -/
theorem claim_C9_amended :
    (∀ (fenv : FEnv) (s : EngineState) (m : WireMsg),
      m.type = "put" → isConnPath m.path.toList = true → s.connection = connObj →
      ((socketMessage fenv s (.msg m)).1).connection = connObj) ∧
    (∀ (fenv : FEnv) (s : EngineState) (m : WireMsg) (pr : Parsed),
      m.type = "post" → splitPath s m.path = .ok pr → pr.usedConn = true → pr.segs = [] →
      pr.prop ≠ "hello" → s.connection = connObj → m.id ≠ 0 →
      socketMessage fenv s (.msg m) =
        (s, [Effect.logEx (typeErr "is not a function"),
             Effect.send { type := "resp", id := m.id, path := "",
                           body := .str "is not a function", error := -1 }])) ∧
    (∀ (fenv : FEnv) (s : EngineState) (m : WireMsg) (pr : Parsed) (r : JVal),
      m.type = "post" → splitPath s m.path = .ok pr → pr.usedConn = true → pr.segs = [] →
      pr.prop = "hello" → s.connection = connObj → fenv helloId (argsOf m.body) = .ok r →
      socketMessage fenv s (.msg m) = (s, sendResponse m.id (CbRes.val r))) := by
  refine ⟨?_, ?_, ?_⟩
  · intro fenv s m ht hc hconn
    cases hp : parsePath s m.path with
    | error e =>
      simp [socketMessage, processMsg, ht, hp, hconn]
    | ok po =>
      obtain ⟨pr, o⟩ := po
      obtain ⟨hs2, hw2⟩ := parsePath_inv s m.path pr o hp
      obtain ⟨hbase, husc⟩ := splitPath_conn s m.path pr hc hs2
      cases hst : setAtPath pr.base pr.segs pr.prop m.body with
      | error e =>
        simp [socketMessage, processMsg, ht, hp, hst, hconn]
      | ok nb =>
        have hst2 : setAtPath connObj pr.segs pr.prop m.body = .ok nb := by
          rw [← hconn, ← hbase]; exact hst
        have hnb : nb = connObj := setAtPath_connObj_inert pr.segs pr.prop m.body nb hst2
        simp [socketMessage, processMsg, ht, hp, hst, husc, hnb]
  · intro fenv s m pr ht hs husc hsegs hprop hconn hid
    have hbase := splitPath_base_conn s m.path pr hs husc
    have hpp : parsePath s m.path = .ok (pr, connObj) := by
      simp only [parsePath, hs, hsegs, walk]
      rw [hbase, hconn]
    have hne : ¬ ("hello" = pr.prop) := fun hh => hprop hh.symm
    have hgm : getMember connObj pr.prop = .ok .undefined := by
      simp [getMember, connObj, alook, hne]
    simp [socketMessage, processMsg, ht, hpp, hgm, invoke, reqIdOf, sendResponse, hid,
      mkErrCode, typeErr]
  · intro fenv s m pr r ht hs husc hsegs hprop hconn hr
    have hbase := splitPath_base_conn s m.path pr hs husc
    have hpp : parsePath s m.path = .ok (pr, connObj) := by
      simp only [parsePath, hs, hsegs, walk]
      rw [hbase, hconn]
    have hgm : getMember connObj pr.prop = .ok (.func helloId) := by
      rw [hprop]
      rfl
    simp [socketMessage, processMsg, ht, hpp, hgm, invoke, hr]

/-- Witness for the amended C9: a reserved-path `put` leaves the connection
object as constructed; a `post` to `@/x` is answered with an error response;
a `post` to `@/hello` invokes the handshake and returns the identity
record. -/
theorem claim_C9_amended_witness :
    ((socketMessage fenv0 appState
        (.msg { type := "put", id := 4, path := "@/x", body := .num 5, error := 0 })).1).connection = connObj ∧
    socketMessage fenv0 appState
        (.msg { type := "post", id := 5, path := "@/x", body := .undefined, error := 0 }) =
      (appState, [Effect.logEx (typeErr "is not a function"),
                  Effect.send { type := "resp", id := 5, path := "",
                                body := .str "is not a function", error := -1 }]) ∧
    socketMessage helloEnv appState
        (.msg { type := "post", id := 6, path := "@/hello", body := .undefined, error := 0 }) =
      (appState, sendResponse 6 (CbRes.val localInfoVal)) := by
  refine ⟨?_, ?_, ?_⟩
  · exact claim_C9_amended.1 fenv0 appState
      { type := "put", id := 4, path := "@/x", body := .num 5, error := 0 } rfl rfl rfl
  · exact claim_C9_amended.2.1 fenv0 appState
      { type := "post", id := 5, path := "@/x", body := .undefined, error := 0 }
      { base := connObj, usedConn := true, segs := [], prop := "x" }
      rfl rfl rfl rfl (by decide) rfl (by decide)
  · exact claim_C9_amended.2.2 helloEnv appState
      { type := "post", id := 6, path := "@/hello", body := .undefined, error := 0 }
      { base := connObj, usedConn := true, segs := [], prop := "hello" }
      localInfoVal rfl rfl rfl rfl rfl rfl rfl


/-! ## Listener lifecycle lemmas (claim C1) -/

theorem countReq_single_send (m : WireMsg) (ty p : String) :
    countReq [Effect.send m] ty p = if m.type = ty ∧ m.path = p then 1 else 0 := by
  by_cases h1 : m.type = ty <;> by_cases h2 : m.path = p <;>
    simp [countReq, isReqFor, List.countP_cons, h1, h2]

theorem addListener_existing (s : EngineState) (p : String) (f : Nat) (ls : List Nat)
    (h : alook s.listeners p = some ls) :
    addListener s p f none = ({ s with listeners := aupd s.listeners p (ls ++ [f]) }, []) := by
  simp [addListener, h]

theorem addListener_fresh (s : EngineState) (p : String) (f : Nat)
    (h : alook s.listeners p = none) :
    addListener s p f none = ({ s with listeners := aset s.listeners p [f] }, [listenSend p]) := by
  simp [addListener, h, sendRequest, listenSend]

theorem removeListener_more (s : EngineState) (p : String) (f : Nat) (ls : List Nat)
    (h : alook s.listeners p = some ls) (hne : ls.erase f ≠ []) :
    removeListener s p (some f) none =
      ({ s with listeners := aupd s.listeners p (ls.erase f) }, []) := by
  cases he : ls.erase f with
  | nil => exact absurd he hne
  | cons a t => simp [removeListener, h, he]

theorem removeListener_last (s : EngineState) (p : String) (f : Nat) (ls : List Nat)
    (h : alook s.listeners p = some ls) (he : ls.erase f = []) :
    removeListener s p (some f) none =
      ({ s with listeners := adel s.listeners p }, [unlistenSend p]) := by
  simp [removeListener, h, he, sendRequest, unlistenSend]

theorem runCalls_append (s : EngineState) (p : String) (l1 l2 : List LCall) :
    runCalls s p (l1 ++ l2) =
      ((runCalls (runCalls s p l1).1 p l2).1,
       (runCalls s p l1).2 ++ (runCalls (runCalls s p l1).1 p l2).2) := by
  induction l1 generalizing s with
  | nil => simp [runCalls]
  | cons c t ih => simp [runCalls, ih]

theorem erase_replicate_succ (n : Nat) (f : Nat) :
    (List.replicate (n + 1) f).erase f = List.replicate n f := by
  rw [List.replicate_succ]
  simp

theorem runCalls_adds (p : String) (f : Nat) : ∀ (k : Nat) (s : EngineState) (ls : List Nat),
    alook s.listeners p = some ls →
    ∃ s2, runCalls s p (List.replicate k (LCall.add f)) = (s2, []) ∧
      alook s2.listeners p = some (ls ++ List.replicate k f) := by
  intro k
  induction k with
  | zero => intro s ls h; exact ⟨s, by simp [runCalls], by simpa using h⟩
  | succ n ih =>
    intro s ls h
    have hstep := addListener_existing s p f ls h
    have hupd : alook (aupd s.listeners p (ls ++ [f])) p = some (ls ++ [f]) :=
      alook_aupd_self _ _ _ (by simp [h])
    obtain ⟨s2, hrun, hl⟩ :=
      ih { s with listeners := aupd s.listeners p (ls ++ [f]) } (ls ++ [f]) hupd
    refine ⟨s2, ?_, ?_⟩
    · rw [List.replicate_succ]
      simp [runCalls, applyCall, hstep, hrun]
    · rw [hl]
      simp [List.replicate_succ, List.append_assoc]

theorem runCalls_adds_fresh (p : String) (f N : Nat) (hN : 0 < N) :
    ∀ (s : EngineState), alook s.listeners p = none →
    ∃ s2, runCalls s p (List.replicate N (LCall.add f)) = (s2, [listenSend p]) ∧
      alook s2.listeners p = some (List.replicate N f) := by
  obtain ⟨n, rfl⟩ : ∃ n, N = n + 1 := ⟨N - 1, by omega⟩
  intro s h
  have hstep := addListener_fresh s p f h
  have hset : alook (aset s.listeners p [f]) p = some [f] := alook_aset_self _ _ _
  obtain ⟨s2, hrun, hl⟩ :=
    runCalls_adds p f n { s with listeners := aset s.listeners p [f] } [f] hset
  refine ⟨s2, ?_, ?_⟩
  · rw [List.replicate_succ]
    simp [runCalls, applyCall, hstep, hrun]
  · rw [hl]
    simp [List.replicate_succ]

theorem runCalls_removes (p : String) (f : Nat) : ∀ (j k : Nat), j < k →
    ∀ (s : EngineState), alook s.listeners p = some (List.replicate k f) →
    ∃ s2, runCalls s p (List.replicate j (LCall.rem f)) = (s2, []) ∧
      alook s2.listeners p = some (List.replicate (k - j) f) := by
  intro j
  induction j with
  | zero => intro k hk s h; exact ⟨s, by simp [runCalls], by simpa using h⟩
  | succ n ih =>
    intro k hk s h
    obtain ⟨k2, rfl⟩ : ∃ k2, k = k2 + 1 := ⟨k - 1, by omega⟩
    have he : (List.replicate (k2 + 1) f).erase f = List.replicate k2 f :=
      erase_replicate_succ k2 f
    have hne : List.replicate k2 f ≠ [] := by
      intro hnil
      have := congrArg List.length hnil
      simp at this
      omega
    have hstep := removeListener_more s p f (List.replicate (k2 + 1) f) h (by rw [he]; exact hne)
    have hupd : alook (aupd s.listeners p ((List.replicate (k2 + 1) f).erase f)) p =
        some (List.replicate k2 f) := by
      rw [alook_aupd_self _ _ _ (by simp [h]), he]
    obtain ⟨s2, hrun, hl⟩ :=
      ih k2 (by omega)
        { s with listeners := aupd s.listeners p ((List.replicate (k2 + 1) f).erase f) } hupd
    rw [he] at hstep hrun
    refine ⟨s2, ?_, ?_⟩
    · rw [List.replicate_succ]
      simp [runCalls, applyCall, hstep, hrun]
    · have harith : k2 - n = k2 + 1 - (n + 1) := by omega
      rw [hl, harith]

theorem runCalls_removes_all (p : String) (f : Nat) : ∀ (k : Nat), 0 < k →
    ∀ (s : EngineState), alook s.listeners p = some (List.replicate k f) →
    ∃ s2, runCalls s p (List.replicate k (LCall.rem f)) = (s2, [unlistenSend p]) ∧
      alook s2.listeners p = none := by
  intro k
  induction k with
  | zero => intro hk; exact absurd hk (by omega)
  | succ n ih =>
    intro _ s h
    by_cases hn : n = 0
    · subst hn
      have he : (List.replicate 1 f).erase f = [] := by simp
      have hstep := removeListener_last s p f (List.replicate 1 f) h he
      refine ⟨{ s with listeners := adel s.listeners p }, ?_, ?_⟩
      · simp [List.replicate_succ, runCalls, applyCall, hstep]
      · exact alook_adel_self _ _
    · have he := erase_replicate_succ n f
      have hne : List.replicate n f ≠ [] := by
        intro hnil
        have := congrArg List.length hnil
        simp at this
        omega
      have hstep := removeListener_more s p f (List.replicate (n + 1) f) h (by rw [he]; exact hne)
      have hupd : alook (aupd s.listeners p ((List.replicate (n + 1) f).erase f)) p =
          some (List.replicate n f) := by
        rw [alook_aupd_self _ _ _ (by simp [h]), he]
      obtain ⟨s2, hrun, hl⟩ :=
        ih (by omega)
          { s with listeners := aupd s.listeners p ((List.replicate (n + 1) f).erase f) } hupd
      rw [he] at hstep hrun
      refine ⟨s2, ?_, ?_⟩
      · rw [List.replicate_succ]
        simp [runCalls, applyCall, hstep, hrun]
      · exact hl

/-- Claim C1: starting from an engine with no registration for `p`, a run of
N `addListener(p, f)` calls followed by N `removeListener(p, f)` calls sends
exactly one `listen` frame and exactly one `unlisten` frame for `p`
(regardless of N > 0), ends with no registration for `p`, and after every
prefix of the call sequence the number of `unlisten` frames sent never
exceeds the number of `listen` frames, which in turn never exceeds
`unlisten`s + 1 — i.e. at most one remote subscription for `p` is
outstanding at any point. -/
theorem claim_C1_listener_lifecycle (s : EngineState) (p : String) (f N : Nat)
    (hN : 0 < N) (h : alook s.listeners p = none) :
    countReq (runCalls s p (nCalls N f)).2 "listen" p = 1 ∧
    countReq (runCalls s p (nCalls N f)).2 "unlisten" p = 1 ∧
    alook ((runCalls s p (nCalls N f)).1).listeners p = none ∧
    (∀ k, countReq (runCalls s p ((nCalls N f).take k)).2 "unlisten" p ≤
            countReq (runCalls s p ((nCalls N f).take k)).2 "listen" p ∧
          countReq (runCalls s p ((nCalls N f).take k)).2 "listen" p ≤
            countReq (runCalls s p ((nCalls N f).take k)).2 "unlisten" p + 1) := by
  obtain ⟨s2, hrun1, hl1⟩ := runCalls_adds_fresh p f N hN s h
  obtain ⟨s3, hrun2, hl2⟩ := runCalls_removes_all p f N hN s2 hl1
  have hfull : runCalls s p (nCalls N f) = (s3, [listenSend p, unlistenSend p]) := by
    rw [nCalls, runCalls_append, hrun1]
    simp [hrun2]
  refine ⟨?_, ?_, ?_, ?_⟩
  · rw [hfull]
    simp [countReq, isReqFor, listenSend, unlistenSend, List.countP_cons]
  · rw [hfull]
    simp [countReq, isReqFor, listenSend, unlistenSend, List.countP_cons]
  · rw [hfull]
    exact hl2
  · intro k
    by_cases hk : k ≤ N
    · have htake : (nCalls N f).take k = List.replicate k (LCall.add f) := by
        rw [nCalls, List.take_append_of_le_length (by simp [hk]), List.take_replicate,
          Nat.min_eq_left hk]
      cases Nat.eq_zero_or_pos k with
      | inl h0 =>
        subst h0
        simp [htake, runCalls, countReq]
      | inr hkpos =>
        obtain ⟨s4, hrun4, _⟩ := runCalls_adds_fresh p f k hkpos s h
        rw [htake, hrun4]
        constructor <;> simp [countReq, isReqFor, listenSend, List.countP_cons]
    · push_neg at hk
      have htake : (nCalls N f).take k =
          List.replicate N (LCall.add f) ++ List.replicate (min (k - N) N) (LCall.rem f) := by
        rw [nCalls, List.take_append_eq_append_take, List.take_of_length_le (by simp; omega),
          List.take_replicate]
        simp
      by_cases hjN : min (k - N) N < N
      · obtain ⟨s4, hrun4, hl4⟩ := runCalls_adds_fresh p f N hN s h
        obtain ⟨s5, hrun5, _⟩ := runCalls_removes p f (min (k - N) N) N hjN s4 hl4
        have hpre : runCalls s p ((nCalls N f).take k) = (s5, [listenSend p]) := by
          rw [htake, runCalls_append, hrun4]
          simp [hrun5]
        rw [hpre]
        constructor <;> simp [countReq, isReqFor, listenSend, List.countP_cons]
      · have hjeq : min (k - N) N = N := by omega
        obtain ⟨s4, hrun4, hl4⟩ := runCalls_adds_fresh p f N hN s h
        obtain ⟨s5, hrun5, _⟩ := runCalls_removes_all p f N hN s4 hl4
        have hpre : runCalls s p ((nCalls N f).take k) = (s5, [listenSend p, unlistenSend p]) := by
          rw [htake, hjeq, runCalls_append, hrun4]
          simp [hrun5]
        rw [hpre]
        constructor <;> simp [countReq, isReqFor, listenSend, unlistenSend, List.countP_cons]

/-- Witness for C1: two adds and two removes for path `ev` on a fresh
engine. -/
theorem claim_C1_listener_lifecycle_witness :
    countReq (runCalls (initEngine none) "ev" (nCalls 2 5)).2 "listen" "ev" = 1 ∧
    countReq (runCalls (initEngine none) "ev" (nCalls 2 5)).2 "unlisten" "ev" = 1 := by
  have h := claim_C1_listener_lifecycle (initEngine none) "ev" 5 2 (by decide) rfl
  exact ⟨h.1, h.2.1⟩

end CogSpec
